import Mathlib

/-!
Verification of the detection post-processing pipeline of the
object_detection_demo (`demos/object_detection_demo/main.cpp`).

The demo wires a `DetectionOutput` post-processing layer
(`DetectionOutputPostProcessor`, declared in `detectionoutput.h`) onto a
Faster-RCNN network and then consumes its fixed-shape output tensor.  The
post-processor itself is not among the provided sources, so its pipeline is
modelled from the specification (§4.1 of the design document); everything
taken from `main.cpp` (configuration constants, shape checks, batch clamping,
and the output-consumption loop) is embedded directly from that file.

Numeric tensor values are modelled as rationals (`ℚ`): the claims under
verification concern counts, ordering, sentinels and suppression structure,
none of which depend on floating-point rounding.
-/

/-- A decoded box `(xmin, ymin, xmax, ymax)` (spec §3, "Decoded box"). -/
structure Box where
  xmin : ℚ
  ymin : ℚ
  xmax : ℚ
  ymax : ℚ
deriving DecidableEq, Repr

/-- A candidate detection `(anchorIndex, classLabel, confidence, decodedBox)`
(spec §3, "Candidate detection"). -/
structure Candidate where
  anchorIndex : ℕ
  classLabel : ℕ
  confidence : ℚ
  box : Box
deriving DecidableEq, Repr

/-- One row of the output tensor:
`[imageIndex, classLabel, confidence, xmin, ymin, xmax, ymax]`
(spec §3, "Final detection"; §6 output contract). -/
structure DetRow where
  imageIndex : ℤ
  classLabel : ℤ
  confidence : ℚ
  xmin : ℚ
  ymin : ℚ
  xmax : ℚ
  ymax : ℚ
deriving DecidableEq, Repr

/-- The seven values of an output row, in tensor layout order. -/
def DetRow.toList (r : DetRow) : List ℚ :=
  [(r.imageIndex : ℚ), (r.classLabel : ℚ), r.confidence,
   r.xmin, r.ymin, r.xmax, r.ymax]

/-- Configuration of the DetectionOutput layer (spec §4.1).  Fields that only
affect the coordinate decode of step 1 (`codeType`, `shareLocation`,
`varianceEncodedInTarget`, `normalized`, `clipBoxes`) are absorbed into the
per-class decoded-box input of the pipeline below. -/
structure DetectionOutputConfig where
  numClasses : ℕ
  backgroundLabelId : ℕ
  confidenceThreshold : ℚ
  nmsThreshold : ℚ
  topK : ℕ
  keepTopK : ℕ
  eta : ℚ

/-- Width of the intersection of two boxes (0 when they do not overlap). -/
def interW (a b : Box) : ℚ :=
  max 0 (min a.xmax b.xmax - max a.xmin b.xmin)

/-- Height of the intersection of two boxes (0 when they do not overlap). -/
def interH (a b : Box) : ℚ :=
  max 0 (min a.ymax b.ymax - max a.ymin b.ymin)

/-- Area of a box (0 for degenerate boxes). -/
def Box.area (b : Box) : ℚ :=
  max 0 (b.xmax - b.xmin) * max 0 (b.ymax - b.ymin)

/-- Intersection-over-Union of two boxes (spec glossary: "overlap ratio
between two rectangles, used as the suppression criterion"). -/
def iou (a b : Box) : ℚ :=
  let inter := interW a b * interH a b
  let uni := a.area + b.area - inter
  if uni = 0 then 0 else inter / uni

/-- The candidate ordering used by every sorting stage: confidence
descending, ties broken by original anchor index ascending (spec §4.1
steps 3 and 5). -/
def candLE (a b : Candidate) : Prop :=
  b.confidence < a.confidence ∨
    (a.confidence = b.confidence ∧ a.anchorIndex ≤ b.anchorIndex)

instance : DecidableRel candLE := fun a b => by
  unfold candLE; exact inferInstance

instance : IsTotal Candidate candLE where
  total a b := by
    rcases lt_trichotomy a.confidence b.confidence with h | h | h
    · exact Or.inr (Or.inl h)
    · rcases Nat.le_total a.anchorIndex b.anchorIndex with h2 | h2
      · exact Or.inl (Or.inr ⟨h, h2⟩)
      · exact Or.inr (Or.inr ⟨h.symm, h2⟩)
    · exact Or.inl (Or.inl h)

instance : IsTrans Candidate candLE where
  trans a b c hab hbc := by
    rcases hab with hab | ⟨hab1, hab2⟩
    · rcases hbc with hbc | ⟨hbc1, hbc2⟩
      · exact Or.inl (hbc.trans hab)
      · exact Or.inl (hbc1 ▸ hab)
    · rcases hbc with hbc | ⟨hbc1, hbc2⟩
      · exact Or.inl (hab1 ▸ hbc)
      · exact Or.inr ⟨hab1.trans hbc1, hab2.trans hbc2⟩

/-- Modelled from the spec: step 2 of `DetectionOutputPostProcessor.decode`
(§4.1), whose implementation (`detectionoutput.h`) is not among the
repository sources.  For one class `c`, each anchor whose confidence score
exceeds `confidenceThreshold` yields a candidate carrying its decoded box.
`conf i c` is the confidence of anchor `i` for class `c`; `boxOf c i` is the
decoded box of anchor `i` for class `c` (step 1; with `shareLocation` the
box does not depend on `c`). -/
def candidatesForClass (cfg : DetectionOutputConfig) (numPriors : ℕ)
    (conf : ℕ → ℕ → ℚ) (boxOf : ℕ → ℕ → Box) (c : ℕ) : List Candidate :=
  ((List.range numPriors).filter
    (fun i => cfg.confidenceThreshold < conf i c)).map
    (fun i => ⟨i, c, conf i c, boxOf c i⟩)

/-- Modelled from the spec: step 3 of §4.1 — sort candidates by confidence
descending with ties by anchor index ascending, and retain at most `topK`. -/
def sortCap (cfg : DetectionOutputConfig) (l : List Candidate) :
    List Candidate :=
  (List.insertionSort candLE l).take cfg.topK

/-- Modelled from the spec: step 4 of §4.1, greedy per-class NMS.  `kept`
accumulates the retained candidates; a pending candidate is suppressed when
some retained candidate overlaps it with IoU ≥ the current threshold, and
each retention decays the threshold by `eta` (with `eta = 1` this is plain
greedy NMS). -/
def nmsFilter (eta : ℚ) : ℚ → List Candidate → List Candidate → List Candidate
  | _, _, [] => []
  | thr, kept, c :: rest =>
    if kept.any (fun k => thr ≤ iou k.box c.box) then
      nmsFilter eta thr kept rest
    else
      c :: nmsFilter eta (thr * eta) (kept ++ [c]) rest

/-- Modelled from the spec: the surviving candidates of class `c` after
steps 2-4 of §4.1 for one image. -/
def classSurvivors (cfg : DetectionOutputConfig) (numPriors : ℕ)
    (conf : ℕ → ℕ → ℚ) (boxOf : ℕ → ℕ → Box) (c : ℕ) : List Candidate :=
  nmsFilter cfg.eta cfg.nmsThreshold []
    (sortCap cfg (candidatesForClass cfg numPriors conf boxOf c))

/-- The non-background class labels (spec §4.1 step 2: "each non-background
class"). -/
def foregroundClasses (cfg : DetectionOutputConfig) : List ℕ :=
  (List.range cfg.numClasses).filter (fun c => c ≠ cfg.backgroundLabelId)

/-- Modelled from the spec: step 5 of §4.1 — pool the per-class survivors,
sort by confidence descending (same tie-break), retain the top `keepTopK`. -/
def keptDetections (cfg : DetectionOutputConfig) (numPriors : ℕ)
    (conf : ℕ → ℕ → ℚ) (boxOf : ℕ → ℕ → Box) : List Candidate :=
  (List.insertionSort candLE
    ((foregroundClasses cfg).flatMap
      (classSurvivors cfg numPriors conf boxOf))).take cfg.keepTopK

/-- Number of real (non-padding) rows emitted for one image. -/
def numRealRows (cfg : DetectionOutputConfig) (numPriors : ℕ)
    (conf : ℕ → ℕ → ℚ) (boxOf : ℕ → ℕ → Box) : ℕ :=
  (keptDetections cfg numPriors conf boxOf).length

/-- One emitted output row for image `img` (spec §4.1 step 6). -/
def realRow (img : ℕ) (c : Candidate) : DetRow :=
  ⟨(img : ℤ), (c.classLabel : ℤ), c.confidence,
   c.box.xmin, c.box.ymin, c.box.xmax, c.box.ymax⟩

/-- A padding row: `imageIndex = -1` and zeros elsewhere (spec §4.1
step 6). -/
def padRow : DetRow :=
  ⟨-1, 0, 0, 0, 0, 0, 0⟩

/-- Modelled from the spec: steps 2-6 of `decode` (§4.1) for one image of
the batch — the implementation (`detectionoutput.h`,
`DetectionOutputPostProcessor`) is not among the repository sources.  The
retained detections are written in final sorted order and the remaining
rows of the `keepTopK`-row block are padded with `padRow`. -/
def decodeImage (cfg : DetectionOutputConfig) (img : ℕ) (numPriors : ℕ)
    (conf : ℕ → ℕ → ℚ) (boxOf : ℕ → ℕ → Box) : List DetRow :=
  let real := (keptDetections cfg numPriors conf boxOf).map (realRow img)
  real ++ List.replicate (cfg.keepTopK - real.length) padRow

/-- The DetectionOutput configuration built by `main.cpp` lines 202-214:
`background_label_id = 0`, `eta = 1.0`, `keep_top_k = 200`,
`nms_threshold = 0.3`, `top_k = 400`; the confidence threshold is left at
its default 0 (spec §4.1).  `num_classes` is guessed from the output dims
and is a parameter here. -/
def demoCfg (numClasses : ℕ) : DetectionOutputConfig :=
  { numClasses := numClasses
    backgroundLabelId := 0
    confidenceThreshold := 0
    nmsThreshold := 3 / 10
    topK := 400
    keepTopK := 200
    eta := 1 }

/-- `SizeVector detectionOutLayerOutDims = {7, 200, 1, 1}`
(`main.cpp` line 220). -/
def detectionOutLayerOutDims : List ℕ := [7, 200, 1, 1]

/-- `const int maxProposalCount = detectionOutLayerOutDims[1]`
(`main.cpp` line 277). -/
def maxProposalCount : ℕ := detectionOutLayerOutDims.getD 1 0

/-- `const int objectSize = detectionOutLayerOutDims[0]`
(`main.cpp` line 278). -/
def objectSize : ℕ := detectionOutLayerOutDims.getD 0 0

/-- `int normalized = 0` (`main.cpp` line 186). -/
def normalized : ℕ := 0

/-- `int prior_size = normalized ? 4 : 5` (`main.cpp` line 187). -/
def priorSize : ℕ := if normalized ≠ 0 then 4 else 5

/-- `int num_priors = rois_reshapeOutDims[0] / prior_size`
(`main.cpp` line 188): the anchor count is derived by integer division of
the anchors tensor length by `priorSize`. -/
def numPriorsOf (roisLen : ℕ) : ℕ := roisLen / priorSize

/-- The shape check of `main.cpp` lines 191-195: the number of classes is
guessed from the bbox tensor length; if it is not divisible by
`num_priors * 4` the demo throws before building the post-processor. -/
def guessNumClasses (bboxLen numPriors : ℕ) : Except String ℕ :=
  if bboxLen % (numPriors * 4) ≠ 0 then
    Except.error "Cannot guess number of classes"
  else
    Except.ok (bboxLen / (numPriors * 4))

/-- The demo pipeline for one image: the shape check of
`guessNumClasses` runs first (`main.cpp` lines 191-195), and only on
success is the post-processor built and executed; on failure no output is
produced at all. -/
def demoDecode (bboxLen numPriors : ℕ) (img : ℕ)
    (conf : ℕ → ℕ → ℚ) (boxOf : ℕ → ℕ → Box) :
    Except String (List DetRow) :=
  match guessNumClasses bboxLen numPriors with
  | Except.error e => Except.error e
  | Except.ok nc => Except.ok (decodeImage (demoCfg nc) img numPriors conf boxOf)

/-- A C++ `std::vector` element access with an `int`-valued index, made
total: `none` models an out-of-bounds access (in particular any negative
index). -/
def vecGet (v : List ℚ) (i : ℤ) : Option ℚ :=
  if h : 0 ≤ i ∧ i.toNat < v.length then some (v.get ⟨i.toNat, h.2⟩) else none

/-- The skip condition of the output-consumption loop:
`if (image_id < 0 || confidence == 0) continue;` (`main.cpp` line 417). -/
def rowSkipped (r : DetRow) : Bool :=
  decide (r.imageIndex < 0) || decide (r.confidence = 0)

/-- The body of the output-consumption loop of `main.cpp` lines 407-419,
in source order: `xmin`, `ymin`, `xmax`, `ymax` are computed from
`imageWidths[image_id]` and `imageHeights[image_id]` BEFORE the padding
check `image_id < 0 || confidence == 0`.  The outer `none` models an
out-of-bounds vector access; `some none` is a cleanly skipped row;
`some (some coords)` is a consumed row with its denormalized corners. -/
def consumeRow (widths heights : List ℚ) (r : DetRow) :
    Option (Option (ℚ × ℚ × ℚ × ℚ)) :=
  match vecGet widths r.imageIndex, vecGet heights r.imageIndex with
  | some w, some hgt =>
    let xmin := r.xmin * w
    let ymin := r.ymin * hgt
    let xmax := r.xmax * w
    let ymax := r.ymax * hgt
    if rowSkipped r then some none
    else some (some (xmin, ymin, xmax, ymax))
  | _, _ => none

/-- The batch clamp of `main.cpp` lines 321-327: when the network batch
size differs from the number of read images, the batch size becomes the
minimum of the two. -/
def effectiveBatchSize (networkBatch numImages : ℕ) : ℕ :=
  if networkBatch ≠ numImages then min networkBatch numImages
  else networkBatch

/-- The input-fill loop bound of `main.cpp` line 339:
`image_id < std::min(imagesData.size(), batchSize)` after the clamp. -/
def numFilledImages (networkBatch numImages : ℕ) : ℕ :=
  min numImages (effectiveBatchSize networkBatch numImages)

/-- C10: when the number of successfully read images differs from the
network batch size, main processes exactly `min(numberOfImages, batchSize)`
images: the effective batch size is clamped to that minimum before
inference and the input blob is filled for only that many images. -/
theorem c10_min_images_processed (networkBatch numImages : ℕ) :
    effectiveBatchSize networkBatch numImages = min networkBatch numImages ∧
    numFilledImages networkBatch numImages = min numImages networkBatch := by
  unfold numFilledImages effectiveBatchSize
  split <;> omega

/-- C7 (counterexample): with `normalized == 0` the demo sets
`priorSize = 5` and `numPriors = anchorsTensorLength / 5`, but for an
anchors tensor of length 6 the claimed identity
`numPriors * priorSize == anchorsTensorLength` fails: `6 / 5 * 5 = 5 ≠ 6`. -/
theorem c7_counterexample :
    normalized = 0 ∧ priorSize = 5 ∧ numPriorsOf 6 = 1 ∧
    ¬ numPriorsOf 6 * priorSize = 6 := by decide

/-- C7 (amended): with `normalized == 0` each anchor occupies
`priorSize = 5` elements and `numPriors = anchorsTensorLength / 5`; the
identity `numPriors * priorSize == anchorsTensorLength` holds exactly when
`priorSize` divides the anchors tensor length (the demo never checks this),
and in general only `numPriors * priorSize ≤ anchorsTensorLength`. -/
theorem c7_prior_size_derivation (roisLen : ℕ) :
    priorSize = 5 ∧ numPriorsOf roisLen = roisLen / 5 ∧
    numPriorsOf roisLen * priorSize ≤ roisLen ∧
    (numPriorsOf roisLen * priorSize = roisLen ↔ 5 ∣ roisLen) := by
  have h5 : priorSize = 5 := by decide
  refine ⟨h5, by rw [numPriorsOf, h5], ?_, ?_⟩ <;> rw [numPriorsOf, h5] <;> omega

/-- C6: when the bbox (localization) tensor length violates the invariant
`bboxLen == numPriors * 4 * numClasses` for every possible class count —
equivalently, when it is not divisible by `numPriors * 4` — the demo
throws its shape error before the post-processor is ever built, and no
output rows are produced. -/
theorem c6_shape_mismatch_aborts (bboxLen numPriors : ℕ)
    (_hp : 0 < numPriors)
    (hviol : ∀ c : ℕ, bboxLen ≠ numPriors * 4 * c)
    (img : ℕ) (conf : ℕ → ℕ → ℚ) (boxOf : ℕ → ℕ → Box) :
    demoDecode bboxLen numPriors img conf boxOf =
      Except.error "Cannot guess number of classes" := by
  have hmod : bboxLen % (numPriors * 4) ≠ 0 := by
    intro h
    obtain ⟨c, hc⟩ := Nat.dvd_of_mod_eq_zero h
    exact hviol c hc
  unfold demoDecode guessNumClasses
  simp [hmod]

/-- C6 witness: a bbox tensor of length 5 with one prior is rejected. -/
theorem c6_shape_mismatch_aborts_witness :
    demoDecode 5 1 0 (fun _ _ => 0) (fun _ _ => ⟨0, 0, 0, 0⟩) =
      Except.error "Cannot guess number of classes" :=
  c6_shape_mismatch_aborts 5 1 (by omega) (by omega) 0
    (fun _ _ => 0) (fun _ _ => ⟨0, 0, 0, 0⟩)

/-- C9: whenever the consumption loop body runs without an out-of-bounds
access, the row is skipped (treated as padding) exactly when
`image_id < 0` or `confidence == 0`; in particular a row with a valid
non-negative image index but zero confidence is discarded. -/
theorem c9_skip_condition (widths heights : List ℚ) (r : DetRow)
    (res : Option (ℚ × ℚ × ℚ × ℚ))
    (h : consumeRow widths heights r = some res) :
    res = none ↔ (r.imageIndex < 0 ∨ r.confidence = 0) := by
  unfold consumeRow at h
  cases hw : vecGet widths r.imageIndex with
  | none => rw [hw] at h; cases hh : vecGet heights r.imageIndex <;>
      rw [hh] at h <;> simp at h
  | some w =>
    cases hh : vecGet heights r.imageIndex with
    | none => rw [hw, hh] at h; simp at h
    | some hgt =>
      rw [hw, hh] at h
      by_cases hs : r.imageIndex < 0 ∨ r.confidence = 0
      · have hb : rowSkipped r = true := by
          unfold rowSkipped
          rcases hs with h1 | h2
          · simp [h1]
          · simp [h2]
        simp [hb] at h
        subst h
        exact iff_of_true rfl hs
      · have hb : rowSkipped r = false := by
          unfold rowSkipped
          push_neg at hs
          simp [not_lt.mpr hs.1, hs.2]
        simp [hb] at h
        subst h
        exact iff_of_false (by simp) hs

/-- C9 witness: a row with image index 0 and confidence 0 is skipped. -/
theorem c9_skip_condition_witness :
    (none : Option (ℚ × ℚ × ℚ × ℚ)) = none ↔
      ((⟨0, 1, 0, 0, 0, 1, 1⟩ : DetRow).imageIndex < 0 ∨
       (⟨0, 1, 0, 0, 0, 1, 1⟩ : DetRow).confidence = 0) :=
  c9_skip_condition [1] [1] ⟨0, 1, 0, 0, 0, 1, 1⟩ none (by decide)

/-- C8: the consumption loop looks up `imageWidths[image_id]` and
`imageHeights[image_id]` before the padding check, so for a padding row
(`imageIndex = -1`) the vector access happens with a negative index and,
in the total embedding, yields `none`: the sentinel check does not guard
the accesses. -/
theorem c8_sentinel_does_not_guard_access (widths heights : List ℚ)
    (r : DetRow) (h : r.imageIndex = -1) :
    vecGet widths r.imageIndex = none ∧
    consumeRow widths heights r = none := by
  have hw : vecGet widths r.imageIndex = none := by
    unfold vecGet
    rw [h]
    simp
  refine ⟨hw, ?_⟩
  unfold consumeRow
  rw [hw]

/-- C8 witness: consuming the canonical padding row performs the
out-of-bounds access. -/
theorem c8_sentinel_does_not_guard_access_witness :
    vecGet [1] padRow.imageIndex = none ∧
    consumeRow [1] [1] padRow = none :=
  c8_sentinel_does_not_guard_access [1] [1] padRow (by decide)

theorem interW_comm (a b : Box) : interW a b = interW b a := by
  unfold interW
  rw [min_comm, max_comm a.xmin]

theorem interH_comm (a b : Box) : interH a b = interH b a := by
  unfold interH
  rw [min_comm, max_comm a.ymin]

theorem iou_comm (a b : Box) : iou a b = iou b a := by
  unfold iou
  rw [interW_comm, interH_comm, add_comm a.area]

theorem nmsFilter_subset (eta : ℚ) :
    ∀ (l : List Candidate) (thr : ℚ) (kept : List Candidate) (x : Candidate),
      x ∈ nmsFilter eta thr kept l → x ∈ l := by
  intro l
  induction l with
  | nil => intro thr kept x hx; simp [nmsFilter] at hx
  | cons c rest ih =>
    intro thr kept x hx
    unfold nmsFilter at hx
    by_cases hs : kept.any (fun k => decide (thr ≤ iou k.box c.box))
    · rw [if_pos hs] at hx
      exact List.mem_cons_of_mem c (ih thr kept x hx)
    · rw [if_neg hs] at hx
      rw [List.mem_cons] at hx
      rcases hx with rfl | hx
      · exact List.mem_cons_self x rest
      · exact List.mem_cons_of_mem c (ih (thr * eta) (kept ++ [c]) x hx)

theorem nmsFilter_one_spec (thr : ℚ) :
    ∀ (l kept : List Candidate),
      (∀ c ∈ nmsFilter 1 thr kept l, ∀ k ∈ kept, iou k.box c.box < thr) ∧
      List.Pairwise (fun a b => iou a.box b.box < thr)
        (nmsFilter 1 thr kept l) := by
  intro l
  induction l with
  | nil => intro kept; simp [nmsFilter]
  | cons c rest ih =>
    intro kept
    unfold nmsFilter
    by_cases hs : kept.any (fun k => decide (thr ≤ iou k.box c.box))
    · rw [if_pos hs]
      exact ih kept
    · rw [if_neg hs, mul_one]
      have hkept : ∀ k ∈ kept, iou k.box c.box < thr := by
        intro k hk
        have := (List.any_eq_true.not.mp hs)
        push_neg at this
        have h2 := this k hk
        simpa using h2
      obtain ⟨ih1, ih2⟩ := ih (kept ++ [c])
      constructor
      · intro c2 hc2 k hk
        rw [List.mem_cons] at hc2
        rcases hc2 with rfl | hc2
        · exact hkept k hk
        · exact ih1 c2 hc2 k (List.mem_append_left _ hk)
      · refine List.Pairwise.cons ?_ ih2
        intro b hb
        exact ih1 b hb c (by simp)

theorem mem_candidatesForClass (cfg : DetectionOutputConfig) (numPriors : ℕ)
    (conf : ℕ → ℕ → ℚ) (boxOf : ℕ → ℕ → Box) (c : ℕ) (x : Candidate)
    (hx : x ∈ candidatesForClass cfg numPriors conf boxOf c) :
    x.classLabel = c ∧ cfg.confidenceThreshold < x.confidence := by
  unfold candidatesForClass at hx
  obtain ⟨i, hi, rfl⟩ := List.mem_map.mp hx
  obtain ⟨-, hthr⟩ := List.mem_filter.mp hi
  exact ⟨rfl, by simpa using hthr⟩

theorem mem_sortCap (cfg : DetectionOutputConfig) (l : List Candidate)
    (x : Candidate) (hx : x ∈ sortCap cfg l) : x ∈ l := by
  unfold sortCap at hx
  exact (List.mem_insertionSort candLE).mp (List.take_subset _ _ hx)

theorem mem_classSurvivors (cfg : DetectionOutputConfig) (numPriors : ℕ)
    (conf : ℕ → ℕ → ℚ) (boxOf : ℕ → ℕ → Box) (c : ℕ) (x : Candidate)
    (hx : x ∈ classSurvivors cfg numPriors conf boxOf c) :
    x.classLabel = c ∧ cfg.confidenceThreshold < x.confidence := by
  unfold classSurvivors at hx
  exact mem_candidatesForClass cfg numPriors conf boxOf c x
    (mem_sortCap cfg _ x (nmsFilter_subset cfg.eta _ _ _ x hx))

theorem mem_keptDetections (cfg : DetectionOutputConfig) (numPriors : ℕ)
    (conf : ℕ → ℕ → ℚ) (boxOf : ℕ → ℕ → Box) (x : Candidate)
    (hx : x ∈ keptDetections cfg numPriors conf boxOf) :
    x.classLabel ≠ cfg.backgroundLabelId ∧
    x.classLabel < cfg.numClasses ∧
    cfg.confidenceThreshold < x.confidence := by
  unfold keptDetections at hx
  have hx2 := (List.mem_insertionSort candLE).mp (List.take_subset _ _ hx)
  obtain ⟨cls, hcls, hmem⟩ := List.mem_flatMap.mp hx2
  obtain ⟨hrange, hne⟩ := List.mem_filter.mp hcls
  obtain ⟨hlab, hthr⟩ :=
    mem_classSurvivors cfg numPriors conf boxOf cls x hmem
  refine ⟨?_, ?_, hthr⟩
  · rw [hlab]
    simpa using hne
  · rw [hlab]
    exact List.mem_range.mp hrange

theorem keptDetections_length_le (cfg : DetectionOutputConfig)
    (numPriors : ℕ) (conf : ℕ → ℕ → ℚ) (boxOf : ℕ → ℕ → Box) :
    (keptDetections cfg numPriors conf boxOf).length ≤ cfg.keepTopK := by
  unfold keptDetections
  simp

theorem decodeImage_length (cfg : DetectionOutputConfig) (img : ℕ)
    (numPriors : ℕ) (conf : ℕ → ℕ → ℚ) (boxOf : ℕ → ℕ → Box) :
    (decodeImage cfg img numPriors conf boxOf).length = cfg.keepTopK := by
  unfold decodeImage
  have h := keptDetections_length_le cfg numPriors conf boxOf
  simp only [List.length_append, List.length_map, List.length_replicate]
  omega

theorem pairwise_replicate_self {α : Type} {R : α → α → Prop} {a : α}
    (h : R a a) : ∀ n : ℕ, List.Pairwise R (List.replicate n a)
  | 0 => by simp
  | n + 1 => by
    rw [List.replicate_succ]
    refine List.Pairwise.cons ?_ (pairwise_replicate_self h n)
    intro b hb
    rw [List.eq_of_mem_replicate hb]
    exact h

/-- C1: per processed item, the output block has a fixed capacity of
`keepTopK = 200` rows (matching `maxProposalCount` from
`detectionOutLayerOutDims`) of `objectSize = 7` values, and the number of
non-padding rows (rows whose image index is not the `-1` sentinel) is at
most `keepTopK`. -/
theorem c1_fixed_capacity_and_count_bound (nc img numPriors : ℕ)
    (conf : ℕ → ℕ → ℚ) (boxOf : ℕ → ℕ → Box) :
    (decodeImage (demoCfg nc) img numPriors conf boxOf).length =
      maxProposalCount ∧
    maxProposalCount = (demoCfg nc).keepTopK ∧
    (demoCfg nc).keepTopK = 200 ∧
    (∀ r ∈ decodeImage (demoCfg nc) img numPriors conf boxOf,
      r.toList.length = objectSize) ∧
    objectSize = 7 ∧
    (decodeImage (demoCfg nc) img numPriors conf boxOf).countP
        (fun r => decide (r.imageIndex ≠ -1)) =
      numRealRows (demoCfg nc) numPriors conf boxOf ∧
    numRealRows (demoCfg nc) numPriors conf boxOf ≤ (demoCfg nc).keepTopK := by
  refine ⟨?_, rfl, rfl, ?_, rfl, ?_, keptDetections_length_le _ _ _ _⟩
  · rw [decodeImage_length]
    rfl
  · intro r _
    rfl
  · unfold decodeImage numRealRows
    simp only [List.countP_append]
    have h1 : ∀ r ∈ (keptDetections (demoCfg nc) numPriors conf boxOf).map
        (realRow img), (fun r : DetRow => decide (r.imageIndex ≠ -1)) r = true := by
      intro r hr
      obtain ⟨c, _, rfl⟩ := List.mem_map.mp hr
      simp only [realRow, decide_eq_true_eq]
      omega
    have h2 : ∀ r ∈ List.replicate
        ((demoCfg nc).keepTopK -
          ((keptDetections (demoCfg nc) numPriors conf boxOf).map
            (realRow img)).length) padRow,
        ¬ (fun r : DetRow => decide (r.imageIndex ≠ -1)) r = true := by
      intro r hr
      rw [List.eq_of_mem_replicate hr]
      simp [padRow]
    rw [List.countP_eq_length.mpr h1, List.countP_eq_zero.mpr h2,
      List.length_map]
    omega

/-- C3: after per-class greedy suppression with `eta = 1.0`, every pair of
surviving same-class detections of one image has IoU (in both argument
orders) strictly below `nmsThreshold`; equivalently, a retained candidate
suppressed every later same-class candidate overlapping it with IoU ≥
`nmsThreshold`. -/
theorem c3_nms_no_self_overlap (nc numPriors : ℕ) (conf : ℕ → ℕ → ℚ)
    (boxOf : ℕ → ℕ → Box) (cls : ℕ) :
    List.Pairwise
      (fun a b =>
        iou a.box b.box < (demoCfg nc).nmsThreshold ∧
        iou b.box a.box < (demoCfg nc).nmsThreshold)
      (classSurvivors (demoCfg nc) numPriors conf boxOf cls) := by
  have h := (nmsFilter_one_spec (demoCfg nc).nmsThreshold
    (sortCap (demoCfg nc)
      (candidatesForClass (demoCfg nc) numPriors conf boxOf cls)) []).2
  unfold classSurvivors
  have heta : (demoCfg nc).eta = 1 := rfl
  rw [heta]
  exact h.imp (fun {a b} hab => ⟨hab, iou_comm a.box b.box ▸ hab⟩)

/-- C4: output rows are sorted by confidence descending with ties broken
by ascending original anchor index, both at the per-class sort stage and
after the final cross-class merge; the emitted row block (padding
included) is non-increasing in confidence. -/
theorem c4_sort_order (nc img numPriors : ℕ) (conf : ℕ → ℕ → ℚ)
    (boxOf : ℕ → ℕ → Box) (cls : ℕ) :
    List.Pairwise candLE
      (sortCap (demoCfg nc)
        (candidatesForClass (demoCfg nc) numPriors conf boxOf cls)) ∧
    List.Pairwise candLE (keptDetections (demoCfg nc) numPriors conf boxOf) ∧
    List.Pairwise (fun a b : DetRow => b.confidence ≤ a.confidence)
      (decodeImage (demoCfg nc) img numPriors conf boxOf) := by
  have hkept : List.Pairwise candLE
      (keptDetections (demoCfg nc) numPriors conf boxOf) := by
    unfold keptDetections
    exact List.Pairwise.sublist (List.take_sublist _ _)
      (List.sorted_insertionSort candLE _)
  refine ⟨?_, hkept, ?_⟩
  · unfold sortCap
    exact List.Pairwise.sublist (List.take_sublist _ _)
      (List.sorted_insertionSort candLE _)
  · unfold decodeImage
    rw [List.pairwise_append]
    refine ⟨?_, ?pad, ?_⟩
    case pad =>
      refine pairwise_replicate_self ?_ _
      exact le_refl padRow.confidence
    · refine List.Pairwise.map (realRow img) ?_ hkept
      intro a b hab
      rcases hab with h | ⟨h, -⟩
      · exact le_of_lt h
      · exact le_of_eq h.symm
    · intro a ha b hb
      rw [List.eq_of_mem_replicate hb]
      obtain ⟨c, hc, rfl⟩ := List.mem_map.mp ha
      have hpos := (mem_keptDetections _ _ _ _ c hc).2.2
      exact le_of_lt hpos

/-- C5 (counterexample): with two classes and no anchors, the entire
output block consists of zero-filled padding rows, whose `classLabel`
field equals `backgroundLabelId = 0` — so, read literally over all rows
of the output tensor, the claim fails on padding rows. -/
theorem c5_counterexample :
    padRow ∈ decodeImage (demoCfg 2) 0 0 (fun _ _ => 0)
      (fun _ _ => ⟨0, 0, 0, 0⟩) ∧
    padRow.classLabel = ((demoCfg 2).backgroundLabelId : ℤ) := by
  constructor
  · have h : decodeImage (demoCfg 2) 0 0 (fun _ _ => 0)
        (fun _ _ => ⟨0, 0, 0, 0⟩) = List.replicate 200 padRow := rfl
    rw [h]
    exact List.mem_replicate.mpr ⟨by decide, rfl⟩
  · rfl

/-- C5 (amended): no non-padding output row — a row whose image index is
non-negative — has `classLabel == backgroundLabelId`: the background class
is never emitted as a detection, while zero-filled padding rows do carry
the numeral 0 in their class slot. -/
theorem c5_background_never_emitted (nc img numPriors : ℕ)
    (conf : ℕ → ℕ → ℚ) (boxOf : ℕ → ℕ → Box) (r : DetRow)
    (hr : r ∈ decodeImage (demoCfg nc) img numPriors conf boxOf)
    (hreal : 0 ≤ r.imageIndex) :
    r.classLabel ≠ ((demoCfg nc).backgroundLabelId : ℤ) := by
  unfold decodeImage at hr
  rw [List.mem_append] at hr
  rcases hr with hr | hr
  · obtain ⟨c, hc, rfl⟩ := List.mem_map.mp hr
    have h1 : c.classLabel ≠ 0 := (mem_keptDetections _ _ _ _ c hc).1
    have h2 : (c.classLabel : ℤ) ≠ (0 : ℤ) := by exact_mod_cast h1
    exact h2
  · rw [List.eq_of_mem_replicate hr] at hreal
    exact absurd hreal (by decide)

/-- C5 witness: a single anchor of class 1 with confidence 1 yields a
real output row whose class label is not the background label. -/
theorem c5_background_never_emitted_witness :
    (⟨0, 1, 1, 0, 0, 1, 1⟩ : DetRow).classLabel ≠
      ((demoCfg 2).backgroundLabelId : ℤ) :=
  c5_background_never_emitted 2 0 1
    (fun _ c => if c = 1 then 1 else 0) (fun _ _ => ⟨0, 0, 1, 1⟩)
    ⟨0, 1, 1, 0, 0, 1, 1⟩ (by decide) (by decide)

theorem decodeImage_eq (cfg : DetectionOutputConfig) (img numPriors : ℕ)
    (conf : ℕ → ℕ → ℚ) (boxOf : ℕ → ℕ → Box) :
    decodeImage cfg img numPriors conf boxOf =
      (keptDetections cfg numPriors conf boxOf).map (realRow img) ++
      List.replicate
        (cfg.keepTopK - (keptDetections cfg numPriors conf boxOf).length)
        padRow := by
  show (keptDetections cfg numPriors conf boxOf).map (realRow img) ++
      List.replicate
        (cfg.keepTopK -
          ((keptDetections cfg numPriors conf boxOf).map (realRow img)).length)
        padRow = _
  rw [List.length_map]

/-- C2: within the fixed 200-row output block of one image, every unused
row is the zero-filled padding row with `imageIndex = -1`, every used row
carries the image's non-negative index, and a row's image index is
negative exactly when the row is unused — so a negative image index alone
identifies padding. -/
theorem c2_padding_sentinel (nc img numPriors : ℕ) (conf : ℕ → ℕ → ℚ)
    (boxOf : ℕ → ℕ → Box) (i : ℕ) (hi : i < maxProposalCount) :
    ∃ r, (decodeImage (demoCfg nc) img numPriors conf boxOf)[i]? = some r ∧
      (numRealRows (demoCfg nc) numPriors conf boxOf ≤ i →
        r = padRow ∧ r.imageIndex = -1) ∧
      (i < numRealRows (demoCfg nc) numPriors conf boxOf →
        r.imageIndex = (img : ℤ)) ∧
      (r.imageIndex < 0 ↔
        numRealRows (demoCfg nc) numPriors conf boxOf ≤ i) := by
  have hmax : maxProposalCount = (demoCfg nc).keepTopK := rfl
  rw [hmax] at hi
  rw [decodeImage_eq]
  unfold numRealRows
  set kd := keptDetections (demoCfg nc) numPriors conf boxOf with hkd
  by_cases hcase : i < kd.length
  · have hi2 : i < (kd.map (realRow img)).length := by
      rw [List.length_map]; exact hcase
    refine ⟨realRow img (kd.get ⟨i, hcase⟩), ?_, ?_, ?_, ?_⟩
    · rw [List.getElem?_append_left hi2, List.getElem?_map,
        List.getElem?_eq_getElem hcase]
      rfl
    · intro h
      omega
    · intro _
      rfl
    · constructor
      · intro hneg
        have himg : (img : ℤ) < 0 := hneg
        omega
      · intro h
        omega
  · push_neg at hcase
    have hi2 : (kd.map (realRow img)).length ≤ i := by
      rw [List.length_map]; exact hcase
    refine ⟨padRow, ?_, fun _ => ⟨rfl, rfl⟩,
      fun h => absurd h (by omega), ?_⟩
    · rw [List.getElem?_append_right hi2, List.length_map,
        List.getElem?_replicate, if_pos (by omega)]
    · constructor
      · intro _
        exact hcase
      · intro _
        decide

/-- C2 witness: one anchor of class 1 with confidence 1 in a two-class
configuration; row 0 of the output block is a real detection. -/
theorem c2_padding_sentinel_witness :
    ∃ r, (decodeImage (demoCfg 2) 0 1 (fun _ c => if c = 1 then 1 else 0)
        (fun _ _ => ⟨0, 0, 1, 1⟩))[0]? = some r ∧
      (numRealRows (demoCfg 2) 1 (fun _ c => if c = 1 then 1 else 0)
          (fun _ _ => ⟨0, 0, 1, 1⟩) ≤ 0 →
        r = padRow ∧ r.imageIndex = -1) ∧
      (0 < numRealRows (demoCfg 2) 1 (fun _ c => if c = 1 then 1 else 0)
          (fun _ _ => ⟨0, 0, 1, 1⟩) →
        r.imageIndex = ((0 : ℕ) : ℤ)) ∧
      (r.imageIndex < 0 ↔
        numRealRows (demoCfg 2) 1 (fun _ c => if c = 1 then 1 else 0)
          (fun _ _ => ⟨0, 0, 1, 1⟩) ≤ 0) :=
  c2_padding_sentinel 2 0 1 (fun _ c => if c = 1 then 1 else 0)
    (fun _ _ => ⟨0, 0, 1, 1⟩) 0 (by decide)
